import Mathlib

/-!
# Verification of the diaryTool record store

A shallow embedding of the persistence core of the `ysomeya0906/diaryTool`
repository (files `src/main.py` and `src/app.py`), together with proofs of
the specified properties of its upsert engine, schema reconciliation, codec
and read paths.

The spreadsheet backing store (`gspread`) is modelled as a list of rows of
cells, each cell a `String`; 1-indexed cell operations (`update_cell`,
`findall(..., in_column=1)`, `append_row`, `row_values(1)`) are modelled
directly on this representation.  `pandas` data frames are modelled by a
header list plus row list.  `json.dumps`/`json.loads` on the list of block
dictionaries is modelled by an executable serializer to the exact textual
format `json.dumps` produces for this shape, plus an executable parser of
that format which returns `none` on malformed input (modelling the
`except:`-guarded `json.loads` calls).
-/

namespace Diary

/-- One activity block, as built by the record tab of `main.py`
(`{"category": cat, "title": title, "count": count, "reflection": reflection}`). -/
structure Block where
  category : String
  title : String
  count : Nat
  reflection : String
deriving Repr, DecidableEq

/-- The block-count sum `sum(b['count'] for b in blocks)` from `save_daily_record`. -/
def sumCounts (bs : List Block) : Nat := (bs.map Block.count).sum

/-! ## Decimal printing of naturals (Python `str` on an int, and the
`count` field inside `json.dumps` output). -/

/-- The character of a single decimal digit. -/
def digitChar (d : Nat) : Char := Char.ofNat (48 + d)

/-- The numeric value of a decimal digit character. -/
def digitVal (c : Char) : Nat := c.toNat - 48

/-- Whether a character is one of `'0'`..`'9'`. -/
def isDigitChar (c : Char) : Bool := 48 ≤ c.toNat && c.toNat ≤ 57

/-- Digits of `n`, most significant first, with explicit fuel (the fuel is
always at least the number of digits when it is at least `n`). -/
def natCharsAux : Nat → Nat → List Char
  | 0, _ => []
  | fuel + 1, n => if n = 0 then [] else natCharsAux fuel (n / 10) ++ [digitChar (n % 10)]

/-- Decimal representation of a natural number, as Python's `str` prints it. -/
def natChars (n : Nat) : List Char := if n = 0 then ['0'] else natCharsAux n n

/-- Decimal representation of a natural number as a `String`. -/
def natToString (n : Nat) : String := ⟨natChars n⟩

/-! ## String escaping, as `json.dumps(..., ensure_ascii=False)` escapes the
text fields the application produces. -/

/-- Escape one character for a JSON string literal. -/
def escChar (c : Char) : List Char :=
  if c = '\\' then ['\\', '\\']
  else if c = '"' then ['\\', '"']
  else if c = '\n' then ['\\', 'n']
  else if c = '\t' then ['\\', 't']
  else if c = '\r' then ['\\', 'r']
  else [c]

/-- Escape a whole character sequence. -/
def escapeChars : List Char → List Char
  | [] => []
  | c :: rest => escChar c ++ escapeChars rest

/-- Body of a JSON string literal: the escaped text followed by the closing
quote (the opening quote belongs to the preceding literal fragment). -/
def strBody (s : String) : List Char := escapeChars s.data ++ ['"']

/-- Decode one escape character (the character after a backslash). -/
def escDecode (c : Char) : Option Char :=
  if c = '\\' then some '\\'
  else if c = '"' then some '"'
  else if c = 'n' then some '\n'
  else if c = 't' then some '\t'
  else if c = 'r' then some '\r'
  else none

/-- Parse a JSON string-literal body (after the opening quote) up to and
including the closing quote; returns the decoded text and the rest. -/
def parseStrBody : List Char → Option (List Char × List Char)
  | [] => none
  | c :: rest =>
    if c = '"' then some ([], rest)
    else if c = '\\' then
      match rest with
      | [] => none
      | e :: rest2 =>
        match escDecode e with
        | none => none
        | some d =>
          match parseStrBody rest2 with
          | none => none
          | some (s, r) => some (d :: s, r)
    else
      match parseStrBody rest with
      | none => none
      | some (s, r) => some (c :: s, r)

/-- Split a character list at the first non-digit. -/
def spanDigits : List Char → List Char × List Char
  | [] => ([], [])
  | c :: rest =>
    if isDigitChar c then
      let p := spanDigits rest
      (c :: p.1, p.2)
    else ([], c :: rest)

/-- Value of a digit sequence, most significant first. -/
def digitsVal (ds : List Char) : Nat := ds.foldl (fun acc c => 10 * acc + digitVal c) 0

/-- Parse a decimal number (at least one digit). -/
def parseNatChars (l : List Char) : Option (Nat × List Char) :=
  match spanDigits l with
  | ([], _) => none
  | (ds, rest) => some (digitsVal ds, rest)

/-! ## The block codec: the exact shape `json.dumps(blocks, ensure_ascii=False)`
produces for the list of block dictionaries, and a parser of that shape. -/

/-- Literal fragment up to and including the opening quote of the category value. -/
def catKey : List Char := "\x7b\"category\": \"".data

/-- Literal fragment between the category value and the title value. -/
def titleKey : List Char := ", \"title\": \"".data

/-- Literal fragment between the title value and the count value. -/
def countKey : List Char := ", \"count\": ".data

/-- Literal fragment between the count value and the reflection value. -/
def reflKey : List Char := ", \"reflection\": \"".data

/-- Closing brace of one block object. -/
def closeKey : List Char := "\x7d".data

/-- Serialization of a single block dictionary, as `json.dumps` emits it
(insertion order of the keys
in `main.py` is category, title, count, reflection). -/
def encBlock (b : Block) : List Char :=
  catKey ++ strBody b.category ++ titleKey ++ strBody b.title ++
    countKey ++ natChars b.count ++ reflKey ++ strBody b.reflection ++ closeKey

/-- Comma-separated encoding of a list of blocks (default `json.dumps`
separator is a comma followed by a space). -/
def encBlocksList : List Block → List Char
  | [] => []
  | [b] => encBlock b
  | b :: b2 :: bs => encBlock b ++ ',' :: ' ' :: encBlocksList (b2 :: bs)

/-- The cell text `blocks_json = json.dumps(blocks, ensure_ascii=False)` from
`save_daily_record` (`src/main.py` line 223). -/
def encodeBlocks (bs : List Block) : String := ⟨'[' :: encBlocksList bs ++ [']']⟩

/-- Strip an exact prefix, or fail. -/
def expectChars : List Char → List Char → Option (List Char)
  | [], input => some input
  | _ :: _, [] => none
  | p :: ps, c :: cs => if c = p then expectChars ps cs else none

/-- Parse one serialized block object: the five literal fragments with the
four field values between them, in the order `json.dumps` emits them. -/
def parseBlock (l : List Char) : Option (Block × List Char) :=
  (expectChars catKey l).bind fun l1 =>
  (parseStrBody l1).bind fun p1 =>
  (expectChars titleKey p1.2).bind fun l3 =>
  (parseStrBody l3).bind fun p2 =>
  (expectChars countKey p2.2).bind fun l5 =>
  (parseNatChars l5).bind fun pn =>
  (expectChars reflKey pn.2).bind fun l7 =>
  (parseStrBody l7).bind fun p3 =>
  (expectChars closeKey p3.2).bind fun l9 =>
  some (⟨⟨p1.1⟩, ⟨p2.1⟩, pn.1, ⟨p3.1⟩⟩, l9)

/-- Parse a non-empty comma-separated block sequence followed by the closing
bracket; the fuel bounds the number of blocks. -/
def parseBlocksAux : Nat → List Char → Option (List Block × List Char)
  | 0, _ => none
  | fuel + 1, l =>
    (parseBlock l).bind fun p =>
      match p.2 with
      | [] => none
      | c :: r =>
        if c = ']' then some ([p.1], r)
        else if c = ',' then
          match r with
          | [] => none
          | c2 :: r2 =>
            if c2 = ' ' then (parseBlocksAux fuel r2).map fun q => (p.1 :: q.1, q.2)
            else none
        else none

/-- Parse a whole serialized block list, requiring the input to be consumed
exactly; `none` models `json.loads` raising (or yielding data of the wrong
shape) on text that is not a serialized block list. -/
def decodeBlocksL (l : List Char) : Option (List Block) :=
  match l with
  | [] => none
  | c :: rest =>
    if c = '[' then
      if rest = [']'] then some []
      else
        match parseBlocksAux (rest.length + 1) rest with
        | some (bs, []) => some bs
        | _ => none
    else none

/-- Parsing `json.loads` applied to a stored `BlocksJSON` cell, shaped into blocks;
`none` models the parse failing (caught by the surrounding `except:`). -/
def decodeBlocks (s : String) : Option (List Block) := decodeBlocksL s.data

/-! ## The spreadsheet model

A sheet is its `get_all_values()` matrix: a list of rows, each a list of
cell strings.  Cells absent from a row read as the empty string, matching
gspread's `None`/blank cells. -/

/-- The backing sheet: all rows, the header row (when present) included. -/
abbrev Sheet := List (List String)

/-- Write cell `i` (0-based) of a row, padding with empty cells if the row
is shorter than the target position. -/
def setPad : List String → Nat → String → List String
  | _ :: rest, 0, v => v :: rest
  | [], 0, v => [v]
  | [], i + 1, v => "" :: setPad [] i v
  | x :: rest, i + 1, v => x :: setPad rest i v

/-- gspread `sheet.update_cell(r, c, value)` (1-indexed). -/
def updateCell (s : Sheet) (r c : Nat) (v : String) : Sheet :=
  s.set (r - 1) (setPad (s.getD (r - 1) []) (c - 1) v)

/-- gspread `sheet.cell(r, c).value` (1-indexed; empty cell reads `""`). -/
def getCell (s : Sheet) (r c : Nat) : String := (s.getD (r - 1) []).getD (c - 1) ""

/-- gspread `row_values` trims trailing empty cells. -/
def trimTrailing : List String → List String
  | [] => []
  | c :: rest =>
    match trimTrailing rest with
    | [] => if c = "" then [] else [c]
    | r :: rs => c :: r :: rs

/-- Whether a row's first cell (the `Date` column) equals `d`. -/
def rowMatches (d : String) (row : List String) : Bool := decide (row.getD 0 "" = d)

/-- The search `sheet.findall(str(date), in_column=1)`, returning the 1-based row
numbers of the matching cells, in row order; `idx` is the row number of the
first row of the remaining list. -/
def findallAux (d : String) : Sheet → Nat → List Nat
  | [], _ => []
  | row :: rest, idx =>
    if rowMatches d row then idx :: findallAux d rest (idx + 1)
    else findallAux d rest (idx + 1)

/-- All 1-based row numbers whose first-column cell equals `d`. -/
def findallCol1 (s : Sheet) (d : String) : List Nat := findallAux d s 1

/-- 0-based index of the first row whose `Date` cell equals `d`. -/
def firstMatchIdx? (d : String) : Sheet → Option Nat
  | [] => none
  | row :: rest =>
    if rowMatches d row then some 0 else (firstMatchIdx? d rest).map (· + 1)

/-- Number of rows whose `Date` column equals `d`. -/
def countDate (s : Sheet) (d : String) : Nat := (s.filter (rowMatches d)).length

/-! ## Schema reconciliation (`get_sheet`, `src/main.py` lines 163-200) -/

/-- The current schema, `EXPECTED_HEADERS` in `get_sheet`. -/
def EXPECTED_HEADERS : List String :=
  ["Date", "BlocksJSON", "NewIdeas", "FunnyEpisodes", "NextAction", "TotalBlocks", "Timestamp"]

/-- The header-repair loop of `get_sheet`: for each schema column `i`
(0-based), overwrite header cell `i+1` when the stored header disagrees at
`i`, and write it when the stored header is too short to have position `i`.
`cur` is the snapshot of `row_values(1)` taken before the loop. -/
def updateHeaderCells (cur : List String) : List String → Nat → Sheet → Sheet
  | [], _, s => s
  | h :: hs, i, s =>
    let s2 :=
      if i < cur.length then
        if cur.getD i "" ≠ h then updateCell s 1 (i + 1) h else s
      else updateCell s 1 (i + 1) h
    updateHeaderCells cur hs (i + 1) s2

/-- The same loop expressed as a transformation of the header row alone. -/
def applyHeaderFix (cur : List String) : List String → Nat → List String → List String
  | [], _, row => row
  | h :: hs, i, row =>
    let row2 :=
      if i < cur.length then
        if cur.getD i "" ≠ h then setPad row i h else row
      else setPad row i h
    applyHeaderFix cur hs (i + 1) row2

/-- The schema-reconciliation body of `get_sheet`: an empty store gets the
current header appended; a store whose header row (trailing blanks trimmed)
is shorter than the schema, and whose cell (1,1) is `"Date"`, has its header
row repaired by `updateHeaderCells`; any other store is returned unchanged.
(The `sheet.resize` call only widens the physical grid and is invisible in
this cell model, where `setPad` pads as needed.) -/
def reconcileHeaders (s : Sheet) : Sheet :=
  if s = [] then [EXPECTED_HEADERS]
  else if (trimTrailing (s.headD [])).length < EXPECTED_HEADERS.length then
    if getCell s 1 1 = "Date" then
      updateHeaderCells (trimTrailing (s.headD [])) EXPECTED_HEADERS 0 s
    else s
  else s

/-- The handle acquisition `get_sheet`: `sheetOk = false` models any failure acquiring or
reconciling the sheet (missing credentials, auth error, or an exception in
the body, all of which make `get_sheet` return `None`). -/
def get_sheet (sheetOk : Bool) (s : Sheet) : Option Sheet :=
  if sheetOk then some (reconcileHeaders s) else none

/-! ## The upsert engine (`save_daily_record`, `src/main.py` lines 219-247) -/

/-- The six cell values written to columns 2..7 for a record:
`blocks_json`, `new_ideas`, `funny_ep`, `next_action`, `total_blocks`
(recomputed from the blocks), `timestamp`. -/
def encodeRowTail (blocks : List Block) (ideas funny next ts : String) : List String :=
  [encodeBlocks blocks, ideas, funny, next, natToString (sumCounts blocks), ts]

/-- The upsert `save_daily_record` with failure injection.  `sheetOk = false` models
`get_sheet()` returning `None` (the `if not sheet: return False` path).
`failAt = some k` makes the `k`-th store operation inside the `try:` block
raise: operation 0 is `findall`; in the update branch operations 1..6 are
the six `update_cell` calls; in the append branch operation 1 is
`append_row`.  The `except:` handler returns `False`; operations already
executed keep their effect on the sheet. -/
def save_daily_recordF (sheetOk : Bool) (failAt : Option Nat) (s : Sheet)
    (date : String) (blocks : List Block) (ideas funny next ts : String) : Bool × Sheet :=
  if sheetOk = false then (false, s)
  else if failAt = some 0 then (false, reconcileHeaders s)
  else
    match findallCol1 (reconcileHeaders s) date with
    | [] =>
      if failAt = some 1 then (false, reconcileHeaders s)
      else (true, reconcileHeaders s ++ [date :: encodeRowTail blocks ideas funny next ts])
    | k :: _ =>
      if failAt = some 1 then (false, reconcileHeaders s)
      else if failAt = some 2 then
        (false, updateCell (reconcileHeaders s) k 2 (encodeBlocks blocks))
      else if failAt = some 3 then
        (false, updateCell (updateCell (reconcileHeaders s) k 2 (encodeBlocks blocks)) k 3 ideas)
      else if failAt = some 4 then
        (false, updateCell (updateCell (updateCell (reconcileHeaders s) k 2
          (encodeBlocks blocks)) k 3 ideas) k 4 funny)
      else if failAt = some 5 then
        (false, updateCell (updateCell (updateCell (updateCell (reconcileHeaders s) k 2
          (encodeBlocks blocks)) k 3 ideas) k 4 funny) k 5 next)
      else if failAt = some 6 then
        (false, updateCell (updateCell (updateCell (updateCell (updateCell
          (reconcileHeaders s) k 2 (encodeBlocks blocks)) k 3 ideas) k 4 funny) k 5 next)
          k 6 (natToString (sumCounts blocks)))
      else
        (true, updateCell (updateCell (updateCell (updateCell (updateCell (updateCell
          (reconcileHeaders s) k 2 (encodeBlocks blocks)) k 3 ideas) k 4 funny) k 5 next)
          k 6 (natToString (sumCounts blocks))) k 7 ts)

/-- The sheet produced by a successful `save_daily_record(date, blocks,
new_ideas, funny_ep, next_action)` (the failure-free run of
`save_daily_recordF`). -/
def save_daily_record (s : Sheet) (date : String) (blocks : List Block)
    (ideas funny next ts : String) : Sheet :=
  (save_daily_recordF true none s date blocks ideas funny next ts).2

/-- How many store operations a complete save performs after reconciliation:
`findall` plus either one `append_row` or six `update_cell` calls. -/
def saveOpCount (s0 : Sheet) (date : String) : Nat :=
  match findallCol1 s0 date with
  | [] => 2
  | _ :: _ => 7

/-- Whether `failAt` names an operation the run actually reaches. -/
def failsBeforeOps (failAt : Option Nat) (n : Nat) : Bool :=
  match failAt with
  | none => false
  | some k => decide (k < n)

/-! ## The read path (`load_all_data` and the tab views of `src/main.py`) -/

/-- A pandas data frame: column names plus rows. -/
structure DataFrame where
  headers : List String
  rows : List (List String)
deriving Repr, DecidableEq

/-- The empty frame `pd.DataFrame()`: no columns, no rows. -/
def emptyDF : DataFrame := ⟨[], []⟩

/-- The loader `load_all_data` (`src/main.py` lines 205-217) with failure injection:
a missing sheet handle, or an exception fetching (`failAt = some 0`) or
shaping (`failAt = some 1`) the rows, yields the empty frame. -/
def load_all_dataF (sheetOk : Bool) (failAt : Option Nat) (s : Sheet) : DataFrame :=
  if sheetOk = false then emptyDF
  else if failAt = some 0 then emptyDF
  else if reconcileHeaders s = [] then emptyDF
  else if failAt = some 1 then emptyDF
  else ⟨(reconcileHeaders s).headD [], (reconcileHeaders s).tail⟩

/-- The failure-free `load_all_data()`. -/
def load_all_data (s : Sheet) : DataFrame := load_all_dataF true none s

/-- 0-based position of a column name in a header list. -/
def colIndex : List String → String → Option Nat
  | [], _ => none
  | h :: hs, name => if h = name then some 0 else (colIndex hs name).map (· + 1)

/-- Column access `row[name]` / `row.get(name, "")` on a data-frame row: the cell in the
named column, `""` when the column is missing or the row too short. -/
def dfGet (df : DataFrame) (row : List String) (name : String) : String :=
  match colIndex df.headers name with
  | some i => row.getD i ""
  | none => ""

/-- What the record tab holds in session state after its auto-load. -/
structure LoadedRecord where
  temp_blocks : List Block
  form_ideas : String
  form_funny : String
  form_next : String
deriving Repr, DecidableEq

/-- The cleared session state (`temp_blocks = []`, empty text fields). -/
def emptyLoaded : LoadedRecord := ⟨[], "", "", ""⟩

/-- The auto-load of the record tab (`src/main.py` lines 269-290): if the
frame is non-empty and some row's `Date` equals the selected date, take the
first such row, decode its `BlocksJSON` and read the three text fields; on
a decode failure, or when no row matches, clear everything. -/
def forDate (df : DataFrame) (dateStr : String) : LoadedRecord :=
  if df.rows = [] then emptyLoaded
  else if df.rows.filter (fun r => decide (dfGet df r "Date" = dateStr)) = [] then emptyLoaded
  else
    match decodeBlocks (dfGet df
        ((df.rows.filter (fun r => decide (dfGet df r "Date" = dateStr))).headD [])
        "BlocksJSON") with
    | some bs =>
      ⟨bs,
        dfGet df ((df.rows.filter (fun r => decide (dfGet df r "Date" = dateStr))).headD [])
          "NewIdeas",
        dfGet df ((df.rows.filter (fun r => decide (dfGet df r "Date" = dateStr))).headD [])
          "FunnyEpisodes",
        dfGet df ((df.rows.filter (fun r => decide (dfGet df r "Date" = dateStr))).headD [])
          "NextAction"⟩
    | none => emptyLoaded

/-- The per-row decode of the list tab (`src/main.py` lines 393-395):
`try: blocks = json.loads(row['BlocksJSON']) except: blocks = []`. -/
def decodeRowBlocks (df : DataFrame) (row : List String) : List Block :=
  match decodeBlocks (dfGet df row "BlocksJSON") with
  | some bs => bs
  | none => []

/-- The block lists the list tab decodes, one per loaded row. -/
def tabListBlocks (df : DataFrame) : List (List Block) :=
  df.rows.map (decodeRowBlocks df)

/-! ## The flat-file iteration (`src/app.py`) -/

/-- The CSV schema of `app.py`'s `load_data`. -/
def APP_COLUMNS : List String :=
  ["Date", "Item 1", "Item 2", "Item 3", "Item 4", "Timestamp"]

/-- The CSV loader `load_data` (`src/app.py` lines 19-28): a missing file or a failing
`read_csv` yields an empty frame with the schema columns. -/
def app_load_data (fileExists readOk : Bool) (contents : DataFrame) : DataFrame :=
  if fileExists = false then ⟨APP_COLUMNS, []⟩
  else if readOk = false then ⟨APP_COLUMNS, []⟩
  else contents

/-- The CSV writer `save_data` (`src/app.py` lines 30-46): build the new entry and
`pd.concat` it onto the loaded rows — an unconditional append. `stored` is
the data-row list of the CSV file. -/
def app_save_data (stored : List (List String))
    (date item1 item2 item3 item4 ts : String) : List (List String) :=
  stored ++ [[date, item1, item2, item3, item4, ts]]

/-- Number of CSV rows whose `Date` column equals `d`. -/
def csvCountDate (rows : List (List String)) (d : String) : Nat :=
  (rows.filter (rowMatches d)).length

/-- A store whose first row is the current schema header (or which is
entirely empty): the state every reconciled store is in. -/
def WellFormedSheet (s : Sheet) : Prop := s = [] ∨ s.headD [] = EXPECTED_HEADERS

/-- Columns 2..7 of a row overwritten with a six-cell tail, the first
(date) cell kept, cells beyond column 7 kept. -/
def overwriteTail (row tail : List String) : List String :=
  row.take 1 ++ tail ++ row.drop 7

/-- The row a successful save leaves for `date`: the appended row when no
row matched, the first matching row with its columns 2..7 overwritten
otherwise. -/
def savedRow (s : Sheet) (d : String) (tail : List String) : List String :=
  match firstMatchIdx? d (reconcileHeaders s) with
  | none => d :: tail
  | some j => overwriteTail ((reconcileHeaders s).getD j []) tail

/-- What `reconcileHeaders` does to the header row of a non-empty store. -/
def headerFix (row1 : List String) : List String :=
  if (trimTrailing row1).length < EXPECTED_HEADERS.length then
    if row1.getD 0 "" = "Date" then
      applyHeaderFix (trimTrailing row1) EXPECTED_HEADERS 0 row1
    else row1
  else row1

/-! ## Concrete sample data -/

/-- A sample activity block. -/
def demoBlock : Block := ⟨"play", "game", 2, "fun"⟩

/-- A freshly reset store: just the schema header. -/
def demoSheet : Sheet := [EXPECTED_HEADERS]

/-- A store with two pre-existing rows for the same date. -/
def demoDupSheet : Sheet :=
  [EXPECTED_HEADERS,
   ["2024-03-01", "[]", "a", "b", "c", "0", "t0"],
   ["2024-03-01", "[]", "e", "g", "h", "0", "t0"]]

/-- A loaded frame whose second row holds unparseable block data. -/
def demoBadDF : DataFrame :=
  ⟨EXPECTED_HEADERS,
   [["2024-01-01", "[]", "", "", "", "0", "t"],
    ["2024-01-02", "oops", "", "", "", "0", "t"]]⟩

/-- A three-column header from an older schema generation. -/
def demoShortHeader : List String := ["Date", "BlocksJSON", "NewIdeas"]

/-- A data row written under the three-column schema. -/
def demoShortRow : List String := ["2024-01-01", "[]", "x"]

/-- A full-length header that disagrees with the schema at position 1. -/
def divergentHeader : List String :=
  ["Date", "Wrong", "NewIdeas", "FunnyEpisodes", "NextAction", "TotalBlocks", "Timestamp"]

/-- A short header that disagrees with the schema at position 1. -/
def divergentShortHeader : List String := ["Date", "Wrong"]

/-! ## Codec round-trip -/

theorem digitVal_digitChar (d : Nat) (hd : d < 10) : digitVal (digitChar d) = d := by
  interval_cases d <;> decide

theorem isDigitChar_digitChar (d : Nat) (hd : d < 10) : isDigitChar (digitChar d) = true := by
  interval_cases d <;> decide

theorem natCharsAux_digits (fuel : Nat) : ∀ n, ∀ c ∈ natCharsAux fuel n, isDigitChar c = true := by
  induction fuel with
  | zero => intro n c hc; simp [natCharsAux] at hc
  | succ fuel ih =>
    intro n c hc
    rw [natCharsAux] at hc
    by_cases h0 : n = 0
    · simp [h0] at hc
    · simp only [h0, if_false, List.mem_append, List.mem_singleton] at hc
      rcases hc with hc | hc
      · exact ih _ c hc
      · subst hc; exact isDigitChar_digitChar _ (Nat.mod_lt _ (by norm_num))

theorem natChars_digits (n : Nat) : ∀ c ∈ natChars n, isDigitChar c = true := by
  intro c hc
  rw [natChars] at hc
  by_cases h0 : n = 0
  · simp [h0] at hc; subst hc; decide
  · simp only [h0, if_false] at hc
    exact natCharsAux_digits n n c hc

theorem natChars_ne_nil (n : Nat) : natChars n ≠ [] := by
  rw [natChars]
  by_cases h0 : n = 0
  · simp [h0]
  · simp only [h0, if_false]
    obtain ⟨m, rfl⟩ : ∃ m, n = m + 1 := ⟨n - 1, by omega⟩
    rw [natCharsAux]
    simp [h0]

theorem natCharsAux_val (fuel : Nat) : ∀ n a, n ≤ fuel →
    (natCharsAux fuel n).foldl (fun acc c => 10 * acc + digitVal c) a
      = a * 10 ^ (natCharsAux fuel n).length + n := by
  induction fuel with
  | zero =>
    intro n a hn
    interval_cases n
    simp [natCharsAux]
  | succ fuel ih =>
    intro n a hn
    by_cases h0 : n = 0
    · subst h0; simp [natCharsAux]
    · rw [natCharsAux]
      simp only [h0, if_false]
      rw [List.foldl_append, List.length_append]
      have hdiv : n / 10 ≤ fuel := by
        have : n / 10 < n := Nat.div_lt_self (Nat.pos_of_ne_zero h0) (by norm_num)
        omega
      rw [ih (n / 10) a hdiv]
      simp only [List.foldl_cons, List.foldl_nil, List.length_singleton]
      rw [digitVal_digitChar (n % 10) (Nat.mod_lt _ (by norm_num))]
      have hmod : 10 * (n / 10) + n % 10 = n := Nat.div_add_mod n 10
      calc 10 * (a * 10 ^ (natCharsAux fuel (n / 10)).length + n / 10) + n % 10
          = a * 10 ^ ((natCharsAux fuel (n / 10)).length + 1) + (10 * (n / 10) + n % 10) := by
            ring
        _ = a * 10 ^ ((natCharsAux fuel (n / 10)).length + 1) + n := by rw [hmod]

theorem digitsVal_natChars (n : Nat) : digitsVal (natChars n) = n := by
  rw [natChars]
  by_cases h0 : n = 0
  · subst h0; decide
  · simp only [h0, if_false, digitsVal]
    rw [natCharsAux_val n n 0 le_rfl]
    simp

theorem spanDigits_append (ds : List Char) (c : Char) (r : List Char)
    (hds : ∀ x ∈ ds, isDigitChar x = true) (hc : isDigitChar c = false) :
    spanDigits (ds ++ c :: r) = (ds, c :: r) := by
  induction ds with
  | nil => simp [spanDigits, hc]
  | cons d ds ih =>
    have hd := hds d (by simp)
    have ih2 := ih (fun x hx => hds x (by simp [hx]))
    simp [spanDigits, hd, ih2]

theorem parseNatChars_rt (n : Nat) (c : Char) (r : List Char) (hc : isDigitChar c = false) :
    parseNatChars (natChars n ++ c :: r) = some (n, c :: r) := by
  rw [parseNatChars, spanDigits_append _ c r (natChars_digits n) hc]
  rcases hnn : natChars n with _ | ⟨x, xs⟩
  · exact absurd hnn (natChars_ne_nil n)
  · have hval := digitsVal_natChars n
    rw [hnn] at hval
    simp [hval]

theorem expectChars_append (p l : List Char) : expectChars p (p ++ l) = some l := by
  induction p with
  | nil => rfl
  | cons c p ih => simp [expectChars, ih]

theorem parseStrBody_cons (c : Char) (rest : List Char) :
    parseStrBody (c :: rest) =
      if c = '"' then some ([], rest)
      else if c = '\\' then
        match rest with
        | [] => none
        | e :: rest2 =>
          match escDecode e with
          | none => none
          | some d =>
            match parseStrBody rest2 with
            | none => none
            | some (s, r) => some (d :: s, r)
      else
        match parseStrBody rest with
        | none => none
        | some (s, r) => some (c :: s, r) := by
  rw [parseStrBody.eq_def]

theorem parseStrBody_rt (s : List Char) (rest : List Char) :
    parseStrBody (escapeChars s ++ '"' :: rest) = some (s, rest) := by
  induction s with
  | nil => simp [escapeChars, parseStrBody_cons]
  | cons c s ih =>
    rw [escapeChars]
    by_cases h1 : c = '\\'
    · subst h1; simp [escChar, parseStrBody_cons, escDecode, ih]
    · by_cases h2 : c = '"'
      · subst h2; simp [escChar, parseStrBody_cons, escDecode, ih]
      · by_cases h3 : c = '\n'
        · subst h3; simp [escChar, parseStrBody_cons, escDecode, ih]
        · by_cases h4 : c = '\t'
          · subst h4; simp [escChar, parseStrBody_cons, escDecode, ih]
          · by_cases h5 : c = '\r'
            · subst h5; simp [escChar, parseStrBody_cons, escDecode, ih]
            · simp [escChar, h1, h2, h3, h4, h5, parseStrBody_cons, ih]

theorem parseNat_reflKey (n : Nat) (r : List Char) :
    parseNatChars (natChars n ++ (reflKey ++ r)) = some (n, reflKey ++ r) := by
  have h : reflKey ++ r = ',' :: (" \"reflection\": \"".data ++ r) := rfl
  rw [h, parseNatChars_rt _ _ _ (by decide), ← h]

theorem parseBlock_rt (b : Block) (rest : List Char) :
    parseBlock (encBlock b ++ rest) = some (b, rest) := by
  rw [encBlock, parseBlock]
  simp only [strBody, List.append_assoc, List.singleton_append, List.cons_append,
    List.nil_append]
  rw [expectChars_append]
  simp only [Option.some_bind]
  rw [parseStrBody_rt]
  simp only [Option.some_bind]
  rw [expectChars_append]
  simp only [Option.some_bind]
  rw [parseStrBody_rt]
  simp only [Option.some_bind]
  rw [expectChars_append]
  simp only [Option.some_bind]
  rw [parseNat_reflKey]
  simp only [Option.some_bind]
  rw [expectChars_append]
  simp only [Option.some_bind]
  rw [parseStrBody_rt]
  simp only [Option.some_bind]
  rw [expectChars_append]
  simp only [Option.some_bind]

theorem encBlock_head (b : Block) : ∃ t, encBlock b = '\x7b' :: t := ⟨_, rfl⟩

theorem encBlocksList_length (bs : List Block) : bs.length ≤ (encBlocksList bs).length := by
  induction bs with
  | nil => simp [encBlocksList]
  | cons b bs ih =>
    obtain ⟨t, ht⟩ := encBlock_head b
    rcases bs with _ | ⟨b2, bs2⟩
    · simp [encBlocksList, ht]
    · rw [encBlocksList, ht]
      simp only [List.length_cons, List.length_append] at ih ⊢
      omega

theorem parseBlocksAux_rt (bs : List Block) (hne : bs ≠ []) :
    ∀ fuel, bs.length ≤ fuel → ∀ r,
      parseBlocksAux fuel (encBlocksList bs ++ ']' :: r) = some (bs, r) := by
  induction bs with
  | nil => exact absurd rfl hne
  | cons b bs ih =>
    intro fuel hf r
    obtain ⟨f, rfl⟩ : ∃ f, fuel = f + 1 := ⟨fuel - 1, by simp at hf; omega⟩
    rcases bs with _ | ⟨b2, bs2⟩
    · rw [encBlocksList, parseBlocksAux, parseBlock_rt]
      simp
    · rw [encBlocksList]
      simp only [List.append_assoc, List.cons_append]
      rw [parseBlocksAux, parseBlock_rt]
      simp only [Option.some_bind]
      have hlen : (b2 :: bs2).length ≤ f := by simp at hf ⊢; omega
      rw [ih (by simp) f hlen r]
      simp

theorem decodeBlocks_encodeBlocks (bs : List Block) :
    decodeBlocks (encodeBlocks bs) = some bs := by
  rw [decodeBlocks, encodeBlocks]
  show decodeBlocksL ('[' :: encBlocksList bs ++ [']']) = some bs
  rcases bs with _ | ⟨b, bs⟩
  · rfl
  · obtain ⟨t, ht⟩ := encBlock_head b
    have hhead : ∃ u, encBlocksList (b :: bs) = '\x7b' :: u := by
      rcases bs with _ | ⟨b2, bs2⟩
      · exact ⟨t, by rw [encBlocksList, ht]⟩
      · exact ⟨t ++ ',' :: ' ' :: encBlocksList (b2 :: bs2), by rw [encBlocksList, ht]; simp⟩
    obtain ⟨u, hu⟩ := hhead
    rw [decodeBlocksL.eq_def]
    simp only [List.cons_append]
    have hne : ¬(encBlocksList (b :: bs) ++ [']'] = [']']) := by
      rw [hu]; simp
    simp only [if_pos rfl, hne, if_false]
    have hfuel : (b :: bs).length ≤ (encBlocksList (b :: bs) ++ [']']).length + 1 := by
      have hlen := encBlocksList_length (b :: bs)
      simp only [List.length_append, List.length_cons, List.length_nil] at hlen ⊢
      omega
    have hrt := parseBlocksAux_rt (b :: bs) (by simp)
      ((encBlocksList (b :: bs) ++ [']']).length + 1) hfuel []
    rw [show (encBlocksList (b :: bs) ++ ']' :: ([] : List Char))
        = encBlocksList (b :: bs) ++ [']'] from rfl] at hrt
    rw [hrt]
    simp

/-! ## Cell-level lemmas -/

theorem setPad_getD (i : Nat) : ∀ (row : List String) (v : String) (m : Nat),
    (setPad row i v).getD m "" = if m = i then v else row.getD m "" := by
  induction i with
  | zero =>
    intro row v m
    rcases row with _ | ⟨x, r⟩ <;> rcases m with _ | m <;> simp [setPad]
  | succ i ih =>
    intro row v m
    rcases row with _ | ⟨x, r⟩ <;> rcases m with _ | m
    · simp [setPad]
    · rw [show setPad [] (i + 1) v = "" :: setPad [] i v from rfl,
        List.getD_cons_succ, ih]
      by_cases hmi : m = i <;> simp [hmi]
    · simp [setPad]
    · rw [show setPad (x :: r) (i + 1) v = x :: setPad r i v from rfl,
        List.getD_cons_succ, List.getD_cons_succ, ih]
      by_cases hmi : m = i <;> simp [hmi]

theorem setPad_length (i : Nat) : ∀ (row : List String) (v : String),
    (setPad row i v).length = max row.length (i + 1) := by
  induction i with
  | zero =>
    intro row v
    rcases row with _ | ⟨x, r⟩ <;> simp [setPad]
  | succ i ih =>
    intro row v
    rcases row with _ | ⟨x, r⟩
    · simp [setPad, ih]
    · simp [setPad, ih]; omega

/-! ## Trimming lemmas (`row_values`) -/

theorem trimTrailing_decomp (l : List String) :
    ∃ k, l = trimTrailing l ++ List.replicate k "" := by
  induction l with
  | nil => exact ⟨0, rfl⟩
  | cons c l ih =>
    obtain ⟨k, hk⟩ := ih
    rcases htr : trimTrailing l with _ | ⟨r, rs⟩
    · rw [htr] at hk
      simp only [List.nil_append] at hk
      by_cases hc : c = ""
      · refine ⟨k + 1, ?_⟩
        have h2 : trimTrailing (c :: l) = [] := by simp [trimTrailing, htr, hc]
        rw [h2, hk, hc]
        simp [List.replicate_succ]
      · refine ⟨k, ?_⟩
        have h2 : trimTrailing (c :: l) = [c] := by simp [trimTrailing, htr, hc]
        rw [h2, hk]
        simp
    · refine ⟨k, ?_⟩
      have h2 : trimTrailing (c :: l) = c :: r :: rs := by simp [trimTrailing, htr]
      rw [h2, hk]
      simp [htr]

theorem trimTrailing_agree (l : List String) (m : Nat) (hm : m < (trimTrailing l).length) :
    (trimTrailing l).getD m "" = l.getD m "" := by
  obtain ⟨k, hk⟩ := trimTrailing_decomp l
  conv_rhs => rw [hk]
  rw [List.getD_append _ _ _ _ hm]

theorem trimTrailing_after (l : List String) (m : Nat) (hm : (trimTrailing l).length ≤ m) :
    l.getD m "" = "" := by
  obtain ⟨k, hk⟩ := trimTrailing_decomp l
  conv_lhs => rw [hk]
  rw [List.getD_eq_getElem?_getD, List.getElem?_append_right hm]
  rcases Nat.lt_or_ge (m - (trimTrailing l).length) k with h | h
  · simp [List.getElem?_replicate, h]
  · rw [List.getElem?_eq_none (by simpa using h)]
    rfl

theorem trimTrailing_append_empty (x : List String) :
    trimTrailing (x ++ [""]) = trimTrailing x := by
  induction x with
  | nil => rfl
  | cons c x ih =>
    have ih2 : trimTrailing (List.append x [""]) = trimTrailing x := ih
    simp only [List.cons_append, trimTrailing, ih, ih2]

theorem trimTrailing_append_replicate (t : List String) (k : Nat) :
    trimTrailing (t ++ List.replicate k "") = trimTrailing t := by
  induction k generalizing t with
  | zero => simp
  | succ k ih =>
    rw [List.replicate_succ, show t ++ ("" :: List.replicate k "")
        = (t ++ [""]) ++ List.replicate k "" by simp, ih, trimTrailing_append_empty]

/-! ## First-match lemmas -/

theorem firstMatch_none_iff (d : String) (s : Sheet) :
    firstMatchIdx? d s = none ↔ s.filter (rowMatches d) = [] := by
  induction s with
  | nil => simp [firstMatchIdx?]
  | cons row s ih =>
    by_cases h : rowMatches d row
    · simp [firstMatchIdx?, h, List.filter_cons]
    · simp only [Bool.not_eq_true] at h
      simp [firstMatchIdx?, h, List.filter_cons, ih]

theorem firstMatch_decomp (d : String) (s : Sheet) (j : Nat)
    (h : firstMatchIdx? d s = some j) :
    ∃ pre row post, s = pre ++ row :: post ∧ pre.length = j ∧
      (∀ r ∈ pre, rowMatches d r = false) ∧ rowMatches d row = true := by
  induction s generalizing j with
  | nil => simp [firstMatchIdx?] at h
  | cons row s ih =>
    by_cases hm : rowMatches d row
    · rw [firstMatchIdx?, if_pos hm] at h
      obtain rfl : (0 : Nat) = j := by simpa using h
      exact ⟨[], row, s, rfl, rfl, by simp, hm⟩
    · rw [firstMatchIdx?, if_neg hm] at h
      rcases hfm : firstMatchIdx? d s with _ | j'
      · rw [hfm] at h; exact Option.noConfusion h
      · rw [hfm] at h
        have h2 : j' + 1 = j := by simpa using h
        obtain ⟨pre, row2, post, hs, hlen, hpre, hrow⟩ := ih j' hfm
        refine ⟨row :: pre, row2, post, by simp [hs], by simp [hlen, ← h2], ?_, hrow⟩
        intro r hr
        rcases List.mem_cons.mp hr with hr2 | hr2
        · subst hr2; simpa using hm
        · exact hpre r hr2

theorem findallAux_of_none (d : String) (s : Sheet) (h : firstMatchIdx? d s = none) :
    ∀ i, findallAux d s i = [] := by
  induction s with
  | nil => intro i; rfl
  | cons row s ih =>
    intro i
    by_cases hm : rowMatches d row
    · rw [firstMatchIdx?, if_pos hm] at h; exact Option.noConfusion h
    · rw [firstMatchIdx?, if_neg hm] at h
      have h2 : firstMatchIdx? d s = none := by
        rcases hfm : firstMatchIdx? d s with _ | j'
        · rfl
        · rw [hfm] at h; exact Option.noConfusion h
      rw [findallAux, if_neg hm]
      exact ih h2 (i + 1)

theorem findallAux_of_some (d : String) (s : Sheet) (j : Nat)
    (h : firstMatchIdx? d s = some j) :
    ∀ i, ∃ t2, findallAux d s i = (i + j) :: t2 := by
  induction s generalizing j with
  | nil => simp [firstMatchIdx?] at h
  | cons row s ih =>
    intro i
    by_cases hm : rowMatches d row
    · rw [firstMatchIdx?, if_pos hm] at h
      obtain rfl : (0 : Nat) = j := by simpa using h
      exact ⟨findallAux d s (i + 1), by rw [findallAux, if_pos hm]; simp⟩
    · rw [firstMatchIdx?, if_neg hm] at h
      rcases hfm : firstMatchIdx? d s with _ | j'
      · rw [hfm] at h; exact Option.noConfusion h
      · rw [hfm] at h
        simp only [Option.map_some', Option.some.injEq] at h
        obtain ⟨t2, ht2⟩ := ih j' hfm (i + 1)
        refine ⟨t2, ?_⟩
        rw [findallAux, if_neg hm, ht2]
        congr 1
        omega

/-! ## Reconciliation lemmas -/

theorem updateCell_cons_row1 (row : List String) (rest : Sheet) (c : Nat) (v : String) :
    updateCell (row :: rest) 1 c v = setPad row (c - 1) v :: rest := by
  simp [updateCell]

theorem updateHeaderCells_cons (cur : List String) (hs : List String) :
    ∀ (i : Nat) (row : List String) (rest : Sheet),
      updateHeaderCells cur hs i (row :: rest) = applyHeaderFix cur hs i row :: rest := by
  induction hs with
  | nil => intro i row rest; rfl
  | cons h hs ih =>
    intro i row rest
    rw [updateHeaderCells, applyHeaderFix]
    split_ifs with h1 h2
    · rw [updateCell_cons_row1]
      exact ih (i + 1) (setPad row (i + 1 - 1) h) rest
    · exact ih (i + 1) row rest
    · rw [updateCell_cons_row1]
      exact ih (i + 1) (setPad row (i + 1 - 1) h) rest

theorem reconcileHeaders_cons (row1 : List String) (rest : Sheet) :
    reconcileHeaders (row1 :: rest) = headerFix row1 :: rest := by
  rw [reconcileHeaders, headerFix]
  have hne : ¬(row1 :: rest = ([] : Sheet)) := by simp
  rw [if_neg hne]
  have hhead : (row1 :: rest).headD [] = row1 := rfl
  have hcell : getCell (row1 :: rest) 1 1 = row1.getD 0 "" := rfl
  rw [hhead, hcell]
  split_ifs with h1 h2
  · exact updateHeaderCells_cons _ _ 0 row1 rest
  · rfl
  · rfl

theorem applyHeaderFix_getD (cur : List String) (hs : List String) :
    ∀ (i : Nat) (row : List String),
      (∀ j, i ≤ j → j < cur.length → cur.getD j "" = row.getD j "") →
      ∀ m, (applyHeaderFix cur hs i row).getD m "" =
        if i ≤ m ∧ m < i + hs.length then hs.getD (m - i) "" else row.getD m "" := by
  induction hs with
  | nil =>
    intro i row hagree m
    rw [applyHeaderFix, if_neg (by simp only [List.length_nil]; omega)]
  | cons h hs ih =>
    intro i row hagree m
    rw [applyHeaderFix]
    set row2 := if i < cur.length then
        (if cur.getD i "" ≠ h then setPad row i h else row)
      else setPad row i h with hrow2
    have hrow2_at : row2.getD i "" = h := by
      rw [hrow2]; split_ifs with h1 h2
      · rw [setPad_getD]; simp
      · push_neg at h2
        rw [← hagree i le_rfl h1]; exact h2
      · rw [setPad_getD]; simp
    have hrow2_ne : ∀ m2, m2 ≠ i → row2.getD m2 "" = row.getD m2 "" := by
      intro m2 hm2
      rw [hrow2]
      split_ifs with h1 h2
      · rw [setPad_getD, if_neg hm2]
      · rfl
      · rw [setPad_getD, if_neg hm2]
    have hagree2 : ∀ j, i + 1 ≤ j → j < cur.length → cur.getD j "" = row2.getD j "" := by
      intro j hj hjl
      rw [hrow2_ne j (by omega)]
      exact hagree j (by omega) hjl
    rw [ih (i + 1) row2 hagree2 m]
    simp only [List.length_cons]
    by_cases hm : m = i
    · subst hm
      rw [if_neg (by omega), if_pos (by omega)]
      simpa using hrow2_at
    · by_cases hin : i + 1 ≤ m ∧ m < i + 1 + hs.length
      · rw [if_pos hin, if_pos (by omega)]
        have hmi : m - i = (m - (i + 1)) + 1 := by omega
        rw [hmi]
        simp
      · rw [if_neg hin, if_neg (by omega), hrow2_ne m hm]

theorem applyHeaderFix_length (cur : List String) (hs : List String) :
    ∀ (i : Nat) (row : List String), hs ≠ [] → cur.length < i + hs.length →
      i + hs.length ≤ (applyHeaderFix cur hs i row).length := by
  induction hs with
  | nil => intro i row hne; exact absurd rfl hne
  | cons h hs ih =>
    intro i row _ hcur
    rw [applyHeaderFix]
    rcases hs with _ | ⟨h2, hs2⟩
    · have h1 : ¬ i < cur.length := by simp at hcur; omega
      rw [if_neg h1, applyHeaderFix, setPad_length]
      simp
    · have hcur2 : cur.length < (i + 1) + (h2 :: hs2).length := by
        simp only [List.length_cons] at hcur ⊢; omega
      have hle := ih (i + 1)
        (if i < cur.length then
          (if cur.getD i "" ≠ h then setPad row i h else row)
        else setPad row i h) (by simp) hcur2
      simp only [List.length_cons] at hle ⊢
      omega

theorem headerFix_of_short (row1 : List String)
    (h1 : (trimTrailing row1).length < EXPECTED_HEADERS.length)
    (h2 : row1.getD 0 "" = "Date") :
    (∀ m, m < EXPECTED_HEADERS.length →
      (headerFix row1).getD m "" = EXPECTED_HEADERS.getD m "") ∧
    (∀ m, EXPECTED_HEADERS.length ≤ m → (headerFix row1).getD m "" = row1.getD m "") := by
  have hagree : ∀ j, 0 ≤ j → j < (trimTrailing row1).length →
      (trimTrailing row1).getD j "" = row1.getD j "" :=
    fun j _ hj => trimTrailing_agree row1 j hj
  have hfix : headerFix row1 = applyHeaderFix (trimTrailing row1) EXPECTED_HEADERS 0 row1 := by
    rw [headerFix, if_pos h1, if_pos h2]
  constructor
  · intro m hm
    rw [hfix, applyHeaderFix_getD _ _ 0 row1 hagree m, if_pos (by omega)]
    simp
  · intro m hm
    rw [hfix, applyHeaderFix_getD _ _ 0 row1 hagree m, if_neg (by omega)]

theorem headerFix_getD_zero (row1 : List String) :
    (headerFix row1).getD 0 "" = row1.getD 0 "" := by
  by_cases h1 : (trimTrailing row1).length < EXPECTED_HEADERS.length
  · by_cases h2 : row1.getD 0 "" = "Date"
    · rw [(headerFix_of_short row1 h1 h2).1 0 (by decide), h2]
      rfl
    · rw [headerFix, if_pos h1, if_neg h2]
  · rw [headerFix, if_neg h1]

theorem trimTrailing_eq_schema (l : List String) (hlen : EXPECTED_HEADERS.length ≤ l.length)
    (h7 : ∀ m, m < EXPECTED_HEADERS.length → l.getD m "" = EXPECTED_HEADERS.getD m "")
    (hge : ∀ m, EXPECTED_HEADERS.length ≤ m → l.getD m "" = "") :
    trimTrailing l = EXPECTED_HEADERS := by
  have hlen7 : EXPECTED_HEADERS.length = 7 := rfl
  rw [hlen7] at hlen h7 hge
  have htake : l.take 7 = EXPECTED_HEADERS := by
    apply List.ext_getElem
    · rw [List.length_take]; rw [hlen7]; omega
    · intro m ha hb
      have hm7 : m < 7 := by rw [List.length_take] at ha; omega
      have := h7 m hm7
      rw [List.getD_eq_getElem l "" (by omega),
        List.getD_eq_getElem EXPECTED_HEADERS "" (by rw [hlen7]; omega)] at this
      rw [List.getElem_take]
      exact this
  have hdrop : l.drop 7 = List.replicate (l.length - 7) "" := by
    rw [List.eq_replicate_iff]
    refine ⟨by simp, ?_⟩
    intro b hb
    obtain ⟨m, hm, rfl⟩ := List.mem_iff_getElem.mp hb
    have hml : 7 + m < l.length := by simp [List.length_drop] at hm; omega
    have := hge (7 + m) (by omega)
    rw [List.getD_eq_getElem l "" hml] at this
    rw [List.getElem_drop]
    exact this
  conv_lhs => rw [← List.take_append_drop 7 l, htake, hdrop]
  rw [trimTrailing_append_replicate]
  decide

theorem trimTrailing_headerFix (row1 : List String)
    (h1 : (trimTrailing row1).length < EXPECTED_HEADERS.length)
    (h2 : row1.getD 0 "" = "Date") :
    trimTrailing (headerFix row1) = EXPECTED_HEADERS := by
  obtain ⟨h7, hge⟩ := headerFix_of_short row1 h1 h2
  have hlen : EXPECTED_HEADERS.length ≤ (headerFix row1).length := by
    rw [headerFix, if_pos h1, if_pos h2]
    have := applyHeaderFix_length (trimTrailing row1) EXPECTED_HEADERS 0 row1
      (by decide) (by omega)
    omega
  refine trimTrailing_eq_schema _ hlen h7 (fun m hm => ?_)
  rw [hge m hm]
  exact trimTrailing_after row1 m (by omega)

theorem reconcileHeaders_wf (s : Sheet) (wf : WellFormedSheet s) :
    reconcileHeaders s = if s = [] then [EXPECTED_HEADERS] else s := by
  rcases wf with rfl | hh
  · rfl
  · rcases s with _ | ⟨row1, rest⟩
    · rfl
    · have hr : row1 = EXPECTED_HEADERS := hh
      subst hr
      rw [reconcileHeaders_cons, if_neg (by simp)]
      rw [headerFix, if_neg (by decide)]

theorem reconcileHeaders_ne_nil (s : Sheet) : reconcileHeaders s ≠ [] := by
  rcases s with _ | ⟨row1, rest⟩
  · simp [reconcileHeaders]
  · rw [reconcileHeaders_cons]; simp

theorem reconcileHeaders_length (s : Sheet) (h : s ≠ []) :
    (reconcileHeaders s).length = s.length := by
  rcases s with _ | ⟨row1, rest⟩
  · exact absurd rfl h
  · rw [reconcileHeaders_cons]; simp

theorem rowMatches_headerFix (d : String) (row1 : List String) :
    rowMatches d (headerFix row1) = rowMatches d row1 := by
  rw [rowMatches, rowMatches, headerFix_getD_zero]

theorem reconcileHeaders_count (s : Sheet) (d : String) (hd : d ≠ "Date") :
    countDate (reconcileHeaders s) d = countDate s d := by
  rcases s with _ | ⟨row1, rest⟩
  · show countDate [EXPECTED_HEADERS] d = countDate [] d
    have hm : rowMatches d EXPECTED_HEADERS = false := by
      rw [rowMatches]
      simp only [decide_eq_false_iff_not]
      show ¬("Date" = d)
      exact fun h => hd h.symm
    simp [countDate, List.filter_cons, hm]
  · rw [reconcileHeaders_cons]
    show countDate (headerFix row1 :: rest) d = countDate (row1 :: rest) d
    simp only [countDate, List.filter_cons, rowMatches_headerFix]
    cases rowMatches d row1 <;> simp

/-! ## Upsert lemmas -/

theorem save_eq_of_findall_nil (s : Sheet) (d : String) (b : List Block) (i f n ts : String)
    (hfa : findallCol1 (reconcileHeaders s) d = []) :
    save_daily_record s d b i f n ts =
      reconcileHeaders s ++ [d :: encodeRowTail b i f n ts] := by
  rw [save_daily_record, save_daily_recordF, hfa]
  rfl

theorem save_eq_of_findall_cons (s : Sheet) (d : String) (b : List Block) (i f n ts : String)
    (k : Nat) (t2 : List Nat) (hfa : findallCol1 (reconcileHeaders s) d = k :: t2) :
    save_daily_record s d b i f n ts =
      updateCell (updateCell (updateCell (updateCell (updateCell (updateCell
        (reconcileHeaders s) k 2 (encodeBlocks b)) k 3 i) k 4 f) k 5 n)
        k 6 (natToString (sumCounts b))) k 7 ts := by
  rw [save_daily_record, save_daily_recordF, hfa]
  rfl

theorem updateCell_of_set (s : Sheet) (j : Nat) (r : List String) (c : Nat) (v : String)
    (hj : j < s.length) :
    updateCell (s.set j r) (j + 1) c v = s.set j (setPad r (c - 1) v) := by
  rw [updateCell]
  have h0 : j + 1 - 1 = j := rfl
  rw [h0]
  have h1 : (s.set j r).getD j [] = r := by
    rw [List.getD_eq_getElem _ _ (by simp [hj])]
    exact List.getElem_set_self _
  rw [h1, List.set_set]

theorem setPad_chain (row : List String) (hrow : row ≠ []) (v1 v2 v3 v4 v5 v6 : String) :
    setPad (setPad (setPad (setPad (setPad (setPad row 1 v1) 2 v2) 3 v3) 4 v4) 5 v5) 6 v6
    = overwriteTail row [v1, v2, v3, v4, v5, v6] := by
  rcases row with _ | ⟨a, _ | ⟨b, _ | ⟨c, _ | ⟨d, _ | ⟨e, _ | ⟨f, _ | ⟨g, rest⟩⟩⟩⟩⟩⟩⟩
  · exact absurd rfl hrow
  all_goals rfl

theorem save_update_chain (s0 : Sheet) (j : Nat) (hj : j < s0.length)
    (hrow : s0.getD j [] ≠ []) (v1 v2 v3 v4 v5 v6 : String) :
    updateCell (updateCell (updateCell (updateCell (updateCell (updateCell
      s0 (j + 1) 2 v1) (j + 1) 3 v2) (j + 1) 4 v3) (j + 1) 5 v4) (j + 1) 6 v5) (j + 1) 7 v6
    = s0.set j (overwriteTail (s0.getD j []) [v1, v2, v3, v4, v5, v6]) := by
  have h1 : updateCell s0 (j + 1) 2 v1 = s0.set j (setPad (s0.getD j []) 1 v1) := rfl
  rw [h1, updateCell_of_set _ _ _ _ _ hj, updateCell_of_set _ _ _ _ _ hj,
    updateCell_of_set _ _ _ _ _ hj, updateCell_of_set _ _ _ _ _ hj,
    updateCell_of_set _ _ _ _ _ hj]
  rw [show (3 : Nat) - 1 = 2 from rfl, show (4 : Nat) - 1 = 3 from rfl,
    show (5 : Nat) - 1 = 4 from rfl, show (6 : Nat) - 1 = 5 from rfl,
    show (7 : Nat) - 1 = 6 from rfl]
  rw [setPad_chain _ hrow]

theorem firstMatch_getD (d : String) (s : Sheet) (j : Nat)
    (h : firstMatchIdx? d s = some j) :
    j < s.length ∧ rowMatches d (s.getD j []) = true := by
  obtain ⟨pre, row, post, hs, hlen, hpre, hrow⟩ := firstMatch_decomp d s j h
  subst hs
  constructor
  · simp only [List.length_append, List.length_cons]; omega
  · rw [List.getD_eq_getElem _ _ (by simp only [List.length_append, List.length_cons]; omega)]
    rw [List.getElem_append_right (by omega)]
    subst hlen
    simp [hrow]

theorem rowMatches_nonempty (d : String) (row : List String) (hd0 : d ≠ "")
    (h : rowMatches d row = true) : row ≠ [] := by
  intro hrow
  subst hrow
  rw [rowMatches] at h
  simp at h
  exact hd0 h.symm

theorem save_eq_upsert_none (s : Sheet) (d : String) (b : List Block) (i f n ts : String)
    (hm : firstMatchIdx? d (reconcileHeaders s) = none) :
    save_daily_record s d b i f n ts =
      reconcileHeaders s ++ [d :: encodeRowTail b i f n ts] :=
  save_eq_of_findall_nil s d b i f n ts (findallAux_of_none d _ hm 1)

theorem save_eq_upsert_some (s : Sheet) (d : String) (b : List Block) (i f n ts : String)
    (j : Nat) (hd0 : d ≠ "") (hm : firstMatchIdx? d (reconcileHeaders s) = some j) :
    save_daily_record s d b i f n ts =
      (reconcileHeaders s).set j
        (overwriteTail ((reconcileHeaders s).getD j []) (encodeRowTail b i f n ts)) := by
  obtain ⟨t2, ht2⟩ := findallAux_of_some d _ j hm 1
  have h1j : 1 + j = j + 1 := by omega
  rw [h1j] at ht2
  obtain ⟨hj, hrowm⟩ := firstMatch_getD d _ j hm
  have hrow : (reconcileHeaders s).getD j [] ≠ [] := rowMatches_nonempty d _ hd0 hrowm
  rw [save_eq_of_findall_cons s d b i f n ts (j + 1) t2 ht2,
    save_update_chain _ j hj hrow]
  rfl

/-! ## Generic list decomposition helpers -/

theorem getD_append_len {α : Type} (pre : List α) (x : α) (post : List α) (dflt : α) :
    (pre ++ x :: post).getD pre.length dflt = x := by
  induction pre with
  | nil => rfl
  | cons a pre ih => simpa using ih

theorem set_append_len {α : Type} (pre : List α) (x r : α) (post : List α) :
    (pre ++ x :: post).set pre.length r = pre ++ r :: post := by
  induction pre with
  | nil => rfl
  | cons a pre ih => simp [ih]

theorem filter_eq_nil_of_forall {α : Type} (p : α → Bool) (l : List α)
    (h : ∀ a ∈ l, p a = false) : l.filter p = [] := by
  induction l with
  | nil => rfl
  | cons a l ih =>
    rw [List.filter_cons, if_neg (by simp [h a (by simp)])]
    exact ih (fun a ha => h a (by simp [ha]))

/-! ## The written row -/

theorem encodeRowTail_length (b : List Block) (i f n ts : String) :
    (encodeRowTail b i f n ts).length = 6 := rfl

theorem overwriteTail_getD_zero (row t : List String) (h : row ≠ []) :
    (overwriteTail row t).getD 0 "" = row.getD 0 "" := by
  rcases row with _ | ⟨a, r⟩
  · exact absurd rfl h
  · rfl

theorem overwriteTail_getD_succ (row t : List String) (c : Nat) (h : row ≠ [])
    (hc : c < t.length) :
    (overwriteTail row t).getD (c + 1) "" = t.getD c "" := by
  rcases row with _ | ⟨a, r⟩
  · exact absurd rfl h
  · show (a :: (t ++ r.drop 6)).getD (c + 1) "" = t.getD c ""
    rw [List.getD_cons_succ, List.getD_append _ _ _ _ hc]

theorem savedRow_getD_zero (s : Sheet) (d : String) (tail : List String) (hd0 : d ≠ "") :
    (savedRow s d tail).getD 0 "" = d := by
  rw [savedRow]
  cases hm : firstMatchIdx? d (reconcileHeaders s) with
  | none => rfl
  | some j =>
    obtain ⟨hj, hrowm⟩ := firstMatch_getD d _ j hm
    have hrow := rowMatches_nonempty d _ hd0 hrowm
    rw [overwriteTail_getD_zero _ _ hrow]
    rw [rowMatches] at hrowm
    simpa using hrowm

theorem savedRow_matches (s : Sheet) (d : String) (tail : List String) (hd0 : d ≠ "") :
    rowMatches d (savedRow s d tail) = true := by
  rw [rowMatches, savedRow_getD_zero s d tail hd0]
  simp

theorem savedRow_getD_succ (s : Sheet) (d : String) (tail : List String) (c : Nat)
    (hd0 : d ≠ "") (hc : c < tail.length) :
    (savedRow s d tail).getD (c + 1) "" = tail.getD c "" := by
  rw [savedRow]
  cases hm : firstMatchIdx? d (reconcileHeaders s) with
  | none => simp
  | some j =>
    obtain ⟨hj, hrowm⟩ := firstMatch_getD d _ j hm
    exact overwriteTail_getD_succ _ _ c (rowMatches_nonempty d _ hd0 hrowm) hc

/-! ## Effect of a save on the store -/

theorem save_filter (s : Sheet) (d : String) (b : List Block) (i f n ts : String)
    (hd0 : d ≠ "") :
    ∃ t, (save_daily_record s d b i f n ts).filter (rowMatches d) =
      savedRow s d (encodeRowTail b i f n ts) :: t := by
  cases hm : firstMatchIdx? d (reconcileHeaders s) with
  | none =>
    rw [save_eq_upsert_none _ _ _ _ _ _ _ hm, List.filter_append,
      (firstMatch_none_iff d _).mp hm]
    refine ⟨[], ?_⟩
    simp only [savedRow, hm, List.nil_append]
    rw [List.filter_cons, if_pos (by simp [rowMatches])]
    rfl
  | some j =>
    obtain ⟨pre, row, post, hs0, hlen, hpre, hrow⟩ := firstMatch_decomp d _ j hm
    have hgd : (reconcileHeaders s).getD j [] = row := by
      rw [hs0, ← hlen, getD_append_len]
    have hset : (reconcileHeaders s).set j
        (overwriteTail ((reconcileHeaders s).getD j []) (encodeRowTail b i f n ts)) =
        pre ++ overwriteTail row (encodeRowTail b i f n ts) :: post := by
      rw [hgd, hs0, ← hlen, set_append_len]
    rw [save_eq_upsert_some _ _ _ _ _ _ _ j hd0 hm, hset, List.filter_append,
      filter_eq_nil_of_forall _ _ hpre, List.nil_append, List.filter_cons]
    have hmatch : rowMatches d (overwriteTail row (encodeRowTail b i f n ts)) = true := by
      have h2 := savedRow_matches s d (encodeRowTail b i f n ts) hd0
      simp only [savedRow, hm, hgd] at h2
      exact h2
    rw [if_pos (by simp [hmatch])]
    refine ⟨post.filter (rowMatches d), ?_⟩
    simp only [savedRow, hm, hgd]

theorem save_countDate (s : Sheet) (d : String) (b : List Block) (i f n ts : String)
    (hd : d ≠ "Date") (hd0 : d ≠ "") :
    countDate (save_daily_record s d b i f n ts) d =
      if countDate s d = 0 then 1 else countDate s d := by
  have hrc := reconcileHeaders_count s d hd
  cases hm : firstMatchIdx? d (reconcileHeaders s) with
  | none =>
    have h0 : countDate (reconcileHeaders s) d = 0 := by
      rw [countDate, (firstMatch_none_iff d _).mp hm]
      rfl
    rw [save_eq_upsert_none _ _ _ _ _ _ _ hm]
    rw [show countDate s d = 0 from by omega, if_pos rfl]
    rw [countDate, List.filter_append, (firstMatch_none_iff d _).mp hm, List.nil_append,
      List.filter_cons, if_pos (by simp [rowMatches])]
    rfl
  | some j =>
    obtain ⟨pre, row, post, hs0, hlen, hpre, hrow⟩ := firstMatch_decomp d _ j hm
    have hgd : (reconcileHeaders s).getD j [] = row := by
      rw [hs0, ← hlen, getD_append_len]
    have hset : (reconcileHeaders s).set j
        (overwriteTail ((reconcileHeaders s).getD j []) (encodeRowTail b i f n ts)) =
        pre ++ overwriteTail row (encodeRowTail b i f n ts) :: post := by
      rw [hgd, hs0, ← hlen, set_append_len]
    have hmatch : rowMatches d (overwriteTail row (encodeRowTail b i f n ts)) = true := by
      have h2 := savedRow_matches s d (encodeRowTail b i f n ts) hd0
      simp only [savedRow, hm, hgd] at h2
      exact h2
    have hc0 : countDate (reconcileHeaders s) d = 1 + countDate post d := by
      rw [countDate, hs0, List.filter_append, filter_eq_nil_of_forall _ _ hpre,
        List.nil_append, List.filter_cons, if_pos (by simp [hrow])]
      simp only [List.length_cons, countDate]
      omega
    rw [save_eq_upsert_some _ _ _ _ _ _ _ j hd0 hm, hset]
    rw [show countDate s d = 1 + countDate post d from by omega, if_neg (by omega)]
    rw [countDate, List.filter_append, filter_eq_nil_of_forall _ _ hpre, List.nil_append,
      List.filter_cons, if_pos (by simp [hmatch])]
    simp only [List.length_cons, countDate]
    omega

theorem updateCell_length (x : Sheet) (r c : Nat) (v : String) :
    (updateCell x r c v).length = x.length := by
  simp [updateCell]

theorem save_length_of_findall_cons (s : Sheet) (d : String) (b : List Block)
    (i f n ts : String) (k : Nat) (t2 : List Nat)
    (hfa : findallCol1 (reconcileHeaders s) d = k :: t2) :
    (save_daily_record s d b i f n ts).length = (reconcileHeaders s).length := by
  rw [save_eq_of_findall_cons _ _ _ _ _ _ _ k t2 hfa]
  simp only [updateCell_length]

theorem save_ne_nil (s : Sheet) (d : String) (b : List Block) (i f n ts : String) :
    save_daily_record s d b i f n ts ≠ [] := by
  rcases hfa : findallCol1 (reconcileHeaders s) d with _ | ⟨k, t2⟩
  · rw [save_eq_of_findall_nil _ _ _ _ _ _ _ hfa]; simp
  · intro hnil
    have h0 := save_length_of_findall_cons s d b i f n ts k t2 hfa
    rw [hnil] at h0
    exact reconcileHeaders_ne_nil s (List.length_eq_zero.mp h0.symm)

theorem rowMatches_schema_header (d : String) (hd : d ≠ "Date") :
    rowMatches d EXPECTED_HEADERS = false := by
  rw [rowMatches]
  simp only [decide_eq_false_iff_not]
  show ¬("Date" = d)
  exact fun h => hd h.symm

theorem reconcileHeaders_headD (s : Sheet) (wf : WellFormedSheet s) :
    (reconcileHeaders s).headD [] = EXPECTED_HEADERS := by
  have hr := reconcileHeaders_wf s wf
  rcases wf with rfl | h
  · rw [hr]; rfl
  · rcases s with _ | ⟨r0, rest⟩
    · rw [hr]; rfl
    · rw [hr, if_neg (by simp)]; exact h

theorem save_wf_preserved (s : Sheet) (d : String) (b : List Block) (i f n ts : String)
    (wf : WellFormedSheet s) (hd : d ≠ "Date") (hd0 : d ≠ "") :
    WellFormedSheet (save_daily_record s d b i f n ts) := by
  have hh := reconcileHeaders_headD s wf
  cases hm : firstMatchIdx? d (reconcileHeaders s) with
  | none =>
    rw [save_eq_upsert_none _ _ _ _ _ _ _ hm]
    right
    rcases hs0 : reconcileHeaders s with _ | ⟨r0, rest⟩
    · exact absurd hs0 (reconcileHeaders_ne_nil s)
    · rw [hs0] at hh; simpa using hh
  | some j =>
    rw [save_eq_upsert_some _ _ _ _ _ _ _ j hd0 hm]
    right
    obtain ⟨hj, hrm⟩ := firstMatch_getD d _ j hm
    have hj0 : j ≠ 0 := by
      intro h0
      subst h0
      have hg0 : (reconcileHeaders s).getD 0 [] = EXPECTED_HEADERS := by
        rcases hs0 : reconcileHeaders s with _ | ⟨r0, rest⟩
        · exact absurd hs0 (reconcileHeaders_ne_nil s)
        · rw [hs0] at hh; simpa using hh
      rw [hg0, rowMatches_schema_header d hd] at hrm
      exact Bool.noConfusion hrm
    rcases hs0 : reconcileHeaders s with _ | ⟨r0, rest⟩
    · exact absurd hs0 (reconcileHeaders_ne_nil s)
    · obtain ⟨j2, rfl⟩ : ∃ j2, j = j2 + 1 := ⟨j - 1, by omega⟩
      rw [hs0] at hh
      simp only [List.headD_cons] at hh
      simpa using hh

theorem load_all_data_of_wf (s2 : Sheet) (wf : WellFormedSheet s2) (hne : s2 ≠ []) :
    load_all_data s2 = ⟨EXPECTED_HEADERS, s2.tail⟩ := by
  have hr : reconcileHeaders s2 = s2 := by rw [reconcileHeaders_wf s2 wf, if_neg hne]
  have hh : s2.headD [] = EXPECTED_HEADERS := by
    rcases wf with rfl | h
    · exact absurd rfl hne
    · exact h
  rw [load_all_data, load_all_dataF, hr, if_neg hne, hh]
  rfl

/-! ## Read path on a schema-headed frame -/

theorem dfGet_Date (rows : List (List String)) (row : List String) :
    dfGet ⟨EXPECTED_HEADERS, rows⟩ row "Date" = row.getD 0 "" := rfl

theorem dfGet_BlocksJSON (rows : List (List String)) (row : List String) :
    dfGet ⟨EXPECTED_HEADERS, rows⟩ row "BlocksJSON" = row.getD 1 "" := rfl

theorem dfGet_NewIdeas (rows : List (List String)) (row : List String) :
    dfGet ⟨EXPECTED_HEADERS, rows⟩ row "NewIdeas" = row.getD 2 "" := rfl

theorem dfGet_FunnyEpisodes (rows : List (List String)) (row : List String) :
    dfGet ⟨EXPECTED_HEADERS, rows⟩ row "FunnyEpisodes" = row.getD 3 "" := rfl

theorem dfGet_NextAction (rows : List (List String)) (row : List String) :
    dfGet ⟨EXPECTED_HEADERS, rows⟩ row "NextAction" = row.getD 4 "" := rfl

theorem dfGet_TotalBlocks (rows : List (List String)) (row : List String) :
    dfGet ⟨EXPECTED_HEADERS, rows⟩ row "TotalBlocks" = row.getD 5 "" := rfl

theorem forDate_schema (rows : List (List String)) (d : String) (w : List String)
    (t : List (List String)) (bs : List Block)
    (hft : rows.filter (rowMatches d) = w :: t)
    (hw1 : decodeBlocks (w.getD 1 "") = some bs) :
    forDate ⟨EXPECTED_HEADERS, rows⟩ d = ⟨bs, w.getD 2 "", w.getD 3 "", w.getD 4 ""⟩ := by
  have hrows_ne : rows ≠ [] := by
    intro h; subst h; exact List.noConfusion hft
  have hpred : (fun r => decide (dfGet ⟨EXPECTED_HEADERS, rows⟩ r "Date" = d))
      = rowMatches d := by
    funext r; rfl
  rw [forDate]
  simp only [hpred, hft]
  rw [if_neg hrows_ne, if_neg (by exact List.noConfusion)]
  simp only [List.headD_cons, dfGet_BlocksJSON, dfGet_NewIdeas, dfGet_FunnyEpisodes,
    dfGet_NextAction, hw1]

theorem forDate_after_save (s : Sheet) (d : String) (b : List Block) (i f n ts : String)
    (wf : WellFormedSheet s) (hd : d ≠ "Date") (hd0 : d ≠ "") :
    forDate (load_all_data (save_daily_record s d b i f n ts)) d = ⟨b, i, f, n⟩ := by
  have wf2 := save_wf_preserved s d b i f n ts wf hd hd0
  have hne2 := save_ne_nil s d b i f n ts
  rw [load_all_data_of_wf _ wf2 hne2]
  obtain ⟨t, hft⟩ := save_filter s d b i f n ts hd0
  have htail : (save_daily_record s d b i f n ts).tail.filter (rowMatches d)
      = savedRow s d (encodeRowTail b i f n ts) :: t := by
    rcases hs2 : save_daily_record s d b i f n ts with _ | ⟨r0, rest⟩
    · exact absurd hs2 hne2
    · have hr0 : r0 = EXPECTED_HEADERS := by
        rcases wf2 with hW | hW
        · rw [hs2] at hW; exact absurd hW (by simp)
        · rw [hs2] at hW; simpa using hW
      rw [hs2] at hft
      subst hr0
      rw [List.filter_cons, if_neg (by simp [rowMatches_schema_header d hd])] at hft
      simpa using hft
  have hget : ∀ c : Nat, c < 6 → (savedRow s d (encodeRowTail b i f n ts)).getD (c + 1) ""
      = (encodeRowTail b i f n ts).getD c "" :=
    fun c hc => savedRow_getD_succ s d _ c hd0 (by rw [encodeRowTail_length]; omega)
  rw [forDate_schema _ d _ t b htail
    (by rw [show (1 : Nat) = 0 + 1 from rfl, hget 0 (by omega)]
        exact decodeBlocks_encodeBlocks b)]
  rw [show (2 : Nat) = 1 + 1 from rfl, show (3 : Nat) = 2 + 1 from rfl,
    show (4 : Nat) = 3 + 1 from rfl, hget 1 (by omega), hget 2 (by omega), hget 3 (by omega)]
  rfl

theorem findall_cons_of_count_pos (s : Sheet) (d : String) (h : 0 < countDate s d) :
    ∃ k t2, findallCol1 s d = k :: t2 := by
  cases hm : firstMatchIdx? d s with
  | none =>
    rw [countDate, (firstMatch_none_iff d s).mp hm] at h
    simp at h
  | some j =>
    obtain ⟨t2, ht2⟩ := findallAux_of_some d s j hm 1
    exact ⟨1 + j, t2, ht2⟩

theorem getD_take {α : Type} (l : List α) (k m : Nat) (dflt : α) (h : m < k) :
    (l.take k).getD m dflt = l.getD m dflt := by
  rcases Nat.lt_or_ge m l.length with hm | hm
  · rw [List.getD_eq_getElem _ _ (by simp; omega), List.getD_eq_getElem _ _ hm,
      List.getElem_take]
  · rw [List.getD_eq_getElem?_getD, List.getD_eq_getElem?_getD,
      List.getElem?_eq_none (by simp; omega), List.getElem?_eq_none (by simpa using hm)]

/-! ## The claims -/

/-- C1: if the store has at most one row whose `Date` column equals `d`,
then after a successful `save_daily_record` for `d` it has exactly one such
row, and any later save for the same date updates that row in place — the
row count of the store does not grow and the date still has exactly one
row.  (`d` ranges over date strings, which are non-empty and distinct from
the literal header name `"Date"`.) -/
theorem upsert_date_unique (s : Sheet) (d : String) (b : List Block) (i f n ts : String)
    (b2 : List Block) (i2 f2 n2 ts2 : String)
    (hd : d ≠ "Date") (hd0 : d ≠ "") (hcount : countDate s d ≤ 1) :
    countDate (save_daily_record s d b i f n ts) d = 1 ∧
    (save_daily_record (save_daily_record s d b i f n ts) d b2 i2 f2 n2 ts2).length
      = (save_daily_record s d b i f n ts).length ∧
    countDate (save_daily_record (save_daily_record s d b i f n ts) d b2 i2 f2 n2 ts2) d
      = 1 := by
  have hc1 : countDate (save_daily_record s d b i f n ts) d = 1 := by
    rw [save_countDate s d b i f n ts hd hd0]
    rcases Nat.eq_zero_or_pos (countDate s d) with h0 | hpos
    · rw [h0, if_pos rfl]
    · rw [if_neg (by omega)]; omega
  refine ⟨hc1, ?_, ?_⟩
  · have hrc := reconcileHeaders_count (save_daily_record s d b i f n ts) d hd
    have hpos2 : 0 < countDate (reconcileHeaders (save_daily_record s d b i f n ts)) d := by
      omega
    obtain ⟨k, t2, hfa⟩ := findall_cons_of_count_pos _ d hpos2
    rw [save_length_of_findall_cons _ d b2 i2 f2 n2 ts2 k t2 hfa]
    exact reconcileHeaders_length _ (save_ne_nil s d b i f n ts)
  · rw [save_countDate _ d b2 i2 f2 n2 ts2 hd hd0, hc1]
    rfl

theorem upsert_date_unique_witness :
    (("2024-01-01" : String) ≠ "Date" ∧ ("2024-01-01" : String) ≠ "" ∧
      countDate demoSheet "2024-01-01" ≤ 1) ∧
    (countDate (save_daily_record demoSheet "2024-01-01" [demoBlock] "i" "f" "n" "t1")
        "2024-01-01" = 1 ∧
      (save_daily_record (save_daily_record demoSheet "2024-01-01" [demoBlock] "i" "f" "n" "t1")
          "2024-01-01" [] "i2" "f2" "n2" "t2").length
        = (save_daily_record demoSheet "2024-01-01" [demoBlock] "i" "f" "n" "t1").length ∧
      countDate (save_daily_record (save_daily_record demoSheet "2024-01-01" [demoBlock]
          "i" "f" "n" "t1") "2024-01-01" [] "i2" "f2" "n2" "t2") "2024-01-01" = 1) :=
  ⟨⟨by decide, by decide, by decide⟩,
    upsert_date_unique demoSheet "2024-01-01" [demoBlock] "i" "f" "n" "t1" [] "i2" "f2" "n2" "t2"
      (by decide) (by decide) (by decide)⟩

/-- C2: on a store with the schema header and at most one row for `d`,
saving `r1` then `r2` for `d` makes the record-tab read for `d` return
`r2`'s content (blocks and all three text fields — a full overwrite), and
saving `r1` twice leaves exactly one row for `d` whose read-back is `r1`'s
content (upsert idempotence). -/
theorem upsert_overwrite_idem (s : Sheet) (d : String)
    (b1 : List Block) (i1 f1 n1 ts1 : String) (b2 : List Block) (i2 f2 n2 ts2 : String)
    (wf : WellFormedSheet s) (hd : d ≠ "Date") (hd0 : d ≠ "") (hdup : countDate s d ≤ 1) :
    forDate (load_all_data (save_daily_record (save_daily_record s d b1 i1 f1 n1 ts1)
        d b2 i2 f2 n2 ts2)) d = ⟨b2, i2, f2, n2⟩ ∧
    countDate (save_daily_record (save_daily_record s d b1 i1 f1 n1 ts1)
        d b1 i1 f1 n1 ts1) d = 1 ∧
    forDate (load_all_data (save_daily_record (save_daily_record s d b1 i1 f1 n1 ts1)
        d b1 i1 f1 n1 ts1)) d = ⟨b1, i1, f1, n1⟩ := by
  have wf1 := save_wf_preserved s d b1 i1 f1 n1 ts1 wf hd hd0
  have hcnt1 : countDate (save_daily_record s d b1 i1 f1 n1 ts1) d = 1 := by
    rw [save_countDate s d b1 i1 f1 n1 ts1 hd hd0]
    rcases Nat.eq_zero_or_pos (countDate s d) with h0 | hpos
    · rw [h0, if_pos rfl]
    · rw [if_neg (by omega)]; omega
  refine ⟨forDate_after_save _ d b2 i2 f2 n2 ts2 wf1 hd hd0, ?_,
    forDate_after_save _ d b1 i1 f1 n1 ts1 wf1 hd hd0⟩
  rw [save_countDate _ d b1 i1 f1 n1 ts1 hd hd0, hcnt1]
  rfl

theorem upsert_overwrite_idem_witness :
    (WellFormedSheet demoSheet ∧ ("2024-01-01" : String) ≠ "Date" ∧
      ("2024-01-01" : String) ≠ "" ∧ countDate demoSheet "2024-01-01" ≤ 1) ∧
    (forDate (load_all_data (save_daily_record (save_daily_record demoSheet "2024-01-01"
        [demoBlock] "i1" "f1" "n1" "t1") "2024-01-01" [] "i2" "f2" "n2" "t2")) "2024-01-01"
      = ⟨[], "i2", "f2", "n2"⟩ ∧
    countDate (save_daily_record (save_daily_record demoSheet "2024-01-01"
        [demoBlock] "i1" "f1" "n1" "t1") "2024-01-01" [demoBlock] "i1" "f1" "n1" "t1")
      "2024-01-01" = 1 ∧
    forDate (load_all_data (save_daily_record (save_daily_record demoSheet "2024-01-01"
        [demoBlock] "i1" "f1" "n1" "t1") "2024-01-01" [demoBlock] "i1" "f1" "n1" "t1"))
      "2024-01-01" = ⟨[demoBlock], "i1", "f1", "n1"⟩) :=
  ⟨⟨Or.inr rfl, by decide, by decide, by decide⟩,
    upsert_overwrite_idem demoSheet "2024-01-01" [demoBlock] "i1" "f1" "n1" "t1"
      [] "i2" "f2" "n2" "t2" (Or.inr rfl) (by decide) (by decide) (by decide)⟩

/-- C3: the `TotalBlocks` cell (column 6) of the row a save writes equals
the decimal rendering of the sum of the `count` fields over the saved
blocks — it is recomputed from the blocks at write time (the save function
takes no total from the caller at all) — and a save with no blocks stores
`"0"`. -/
theorem derived_total (s : Sheet) (d : String) (b : List Block) (i f n ts : String)
    (hd0 : d ≠ "") :
    (((save_daily_record s d b i f n ts).filter (rowMatches d)).headD []).getD 5 ""
      = natToString (sumCounts b) ∧
    (b = [] →
      (((save_daily_record s d b i f n ts).filter (rowMatches d)).headD []).getD 5 "" = "0") := by
  obtain ⟨t, hft⟩ := save_filter s d b i f n ts hd0
  have h5 : (((save_daily_record s d b i f n ts).filter (rowMatches d)).headD []).getD 5 ""
      = natToString (sumCounts b) := by
    rw [hft]
    simp only [List.headD_cons]
    rw [show (5 : Nat) = 4 + 1 from rfl,
      savedRow_getD_succ s d _ 4 hd0 (by rw [encodeRowTail_length]; omega)]
    rfl
  exact ⟨h5, fun hb => by rw [h5, hb]; rfl⟩

theorem derived_total_witness :
    (("2024-01-01" : String) ≠ "") ∧
    (((List.filter (rowMatches "2024-01-01")
          (save_daily_record demoSheet "2024-01-01" [demoBlock, demoBlock] "i" "f" "n" "t")).headD
        []).getD 5 "" = natToString (sumCounts [demoBlock, demoBlock]) ∧
    ([demoBlock, demoBlock] = ([] : List Block) →
      ((List.filter (rowMatches "2024-01-01")
          (save_daily_record demoSheet "2024-01-01" [demoBlock, demoBlock] "i" "f" "n" "t")).headD
        []).getD 5 "" = "0")) :=
  ⟨by decide,
    derived_total demoSheet "2024-01-01" [demoBlock, demoBlock] "i" "f" "n" "t" (by decide)⟩

/-- C4: when the store already has two or more rows whose `Date` equals
`d`, a save for `d` rewrites exactly the first matching row in storage
order (the result is the old store with only that row replaced, so every
other matching row is untouched), and the subsequent record-tab read for
`d` returns that row's freshly written content. -/
theorem duplicate_first_match (s : Sheet) (d : String) (b : List Block) (i f n ts : String)
    (wf : WellFormedSheet s) (hd : d ≠ "Date") (hd0 : d ≠ "")
    (hdup : 2 ≤ countDate s d) :
    (firstMatchIdx? d s).isSome = true ∧
    save_daily_record s d b i f n ts = s.set ((firstMatchIdx? d s).getD 0)
      (overwriteTail (s.getD ((firstMatchIdx? d s).getD 0) []) (encodeRowTail b i f n ts)) ∧
    forDate (load_all_data (save_daily_record s d b i f n ts)) d = ⟨b, i, f, n⟩ := by
  have hne : s ≠ [] := by
    intro h
    subst h
    rw [show countDate [] d = 0 from rfl] at hdup
    omega
  have hr : reconcileHeaders s = s := by rw [reconcileHeaders_wf s wf, if_neg hne]
  have hpos : 0 < countDate s d := by omega
  cases hm : firstMatchIdx? d s with
  | none =>
    rw [countDate, (firstMatch_none_iff d s).mp hm] at hpos
    simp at hpos
  | some j =>
    refine ⟨rfl, ?_, forDate_after_save s d b i f n ts wf hd hd0⟩
    have hm2 : firstMatchIdx? d (reconcileHeaders s) = some j := by rw [hr]; exact hm
    rw [save_eq_upsert_some s d b i f n ts j hd0 hm2, hr]
    rfl

theorem duplicate_first_match_witness :
    (WellFormedSheet demoDupSheet ∧ ("2024-03-01" : String) ≠ "Date" ∧
      ("2024-03-01" : String) ≠ "" ∧ 2 ≤ countDate demoDupSheet "2024-03-01") ∧
    ((firstMatchIdx? "2024-03-01" demoDupSheet).isSome = true ∧
    save_daily_record demoDupSheet "2024-03-01" [demoBlock] "i" "f" "n" "t"
      = demoDupSheet.set ((firstMatchIdx? "2024-03-01" demoDupSheet).getD 0)
        (overwriteTail (demoDupSheet.getD
            ((firstMatchIdx? "2024-03-01" demoDupSheet).getD 0) [])
          (encodeRowTail [demoBlock] "i" "f" "n" "t")) ∧
    forDate (load_all_data (save_daily_record demoDupSheet "2024-03-01" [demoBlock]
        "i" "f" "n" "t")) "2024-03-01" = ⟨[demoBlock], "i", "f", "n"⟩) :=
  ⟨⟨Or.inr rfl, by decide, by decide, by decide⟩,
    duplicate_first_match demoDupSheet "2024-03-01" [demoBlock] "i" "f" "n" "t"
      (Or.inr rfl) (by decide) (by decide) (by decide)⟩

/-- C5: opening an empty store writes the current schema header; opening a
store whose (non-empty) stored header is shorter than the schema and
agrees with it on the overlapping names rewrites only the header row so
that it reads as the full schema, keeps every overlapping header cell
(and hence every data column position) as it was, leaves all data rows
untouched, and a pre-existing row reads the new columns as empty. -/
theorem schema_reconcile (row1 : List String) (rest : Sheet) (ci cj : Nat)
    (drow : List String)
    (h1 : trimTrailing row1 ≠ [])
    (h2 : (trimTrailing row1).length < EXPECTED_HEADERS.length)
    (h3 : trimTrailing row1 = EXPECTED_HEADERS.take (trimTrailing row1).length)
    (hci : ci < (trimTrailing row1).length)
    (hdrow : drow.length ≤ (trimTrailing row1).length)
    (hcj : (trimTrailing row1).length ≤ cj) :
    reconcileHeaders [] = [EXPECTED_HEADERS] ∧
    reconcileHeaders (row1 :: rest) = headerFix row1 :: rest ∧
    trimTrailing (headerFix row1) = EXPECTED_HEADERS ∧
    (headerFix row1).getD ci "" = row1.getD ci "" ∧
    drow.getD cj "" = "" := by
  have hlen0 : 0 < (trimTrailing row1).length := by
    rcases htr : trimTrailing row1 with _ | ⟨x, xs⟩
    · exact absurd htr h1
    · simp
  obtain ⟨k, hk⟩ : ∃ k, (trimTrailing row1).length = k + 1 :=
    ⟨(trimTrailing row1).length - 1, by omega⟩
  have hdate : row1.getD 0 "" = "Date" := by
    have e1 : (trimTrailing row1).getD 0 "" = "Date" := by
      rw [h3, hk]
      rfl
    rw [← trimTrailing_agree row1 0 hlen0]
    exact e1
  refine ⟨rfl, reconcileHeaders_cons row1 rest,
    trimTrailing_headerFix row1 h2 hdate, ?_, ?_⟩
  · rw [(headerFix_of_short row1 h2 hdate).1 ci (by omega),
      ← trimTrailing_agree row1 ci hci, h3, getD_take _ _ _ _ hci]
  · rw [List.getD_eq_getElem?_getD, List.getElem?_eq_none (by omega)]
    rfl

theorem schema_reconcile_witness :
    (trimTrailing demoShortHeader ≠ [] ∧
      (trimTrailing demoShortHeader).length < EXPECTED_HEADERS.length ∧
      trimTrailing demoShortHeader
        = EXPECTED_HEADERS.take (trimTrailing demoShortHeader).length ∧
      2 < (trimTrailing demoShortHeader).length ∧
      demoShortRow.length ≤ (trimTrailing demoShortHeader).length ∧
      (trimTrailing demoShortHeader).length ≤ 5) ∧
    (reconcileHeaders [] = [EXPECTED_HEADERS] ∧
    reconcileHeaders (demoShortHeader :: [demoShortRow])
      = headerFix demoShortHeader :: [demoShortRow] ∧
    trimTrailing (headerFix demoShortHeader) = EXPECTED_HEADERS ∧
    (headerFix demoShortHeader).getD 2 "" = demoShortHeader.getD 2 "" ∧
    demoShortRow.getD 5 "" = "") :=
  ⟨⟨by decide, by decide, by decide, by decide, by decide, by decide⟩,
    schema_reconcile demoShortHeader [demoShortRow] 2 5 demoShortRow
      (by decide) (by decide) (by decide) (by decide) (by decide) (by decide)⟩

/-- C6 counterexample: a stored header of full schema length that diverges
from the schema at position 1 (`"Wrong"` instead of `"BlocksJSON"`) is left
completely unchanged by `reconcileHeaders` — the divergent cell is not
overwritten, contradicting the claim that every divergent shared-position
cell is overwritten on open. -/
theorem header_divergence_counterexample :
    divergentHeader.getD 1 "" ≠ EXPECTED_HEADERS.getD 1 "" ∧
    reconcileHeaders [divergentHeader] = [divergentHeader] ∧
    ((reconcileHeaders [divergentHeader]).headD []).getD 1 "" = "Wrong" := by
  decide

/-- C6 (amended): only when the stored header is shorter than the current
schema and its first cell is `"Date"` does acquiring the store handle
overwrite the header cells — in that case every cell in the schema range,
including each divergent shared-position cell, ends up holding the current
schema's name for its position; a stored header of full schema length is
left unmodified even when it diverges. -/
theorem header_divergence_amended (row1 : List String) (rest : Sheet) (cm : Nat)
    (h1 : (trimTrailing row1).length < EXPECTED_HEADERS.length)
    (h2 : row1.getD 0 "" = "Date") (hcm : cm < EXPECTED_HEADERS.length) :
    reconcileHeaders (row1 :: rest) = headerFix row1 :: rest ∧
    (headerFix row1).getD cm "" = EXPECTED_HEADERS.getD cm "" :=
  ⟨reconcileHeaders_cons row1 rest, (headerFix_of_short row1 h1 h2).1 cm hcm⟩

theorem header_divergence_amended_witness :
    ((trimTrailing divergentShortHeader).length < EXPECTED_HEADERS.length ∧
      divergentShortHeader.getD 0 "" = "Date" ∧ 1 < EXPECTED_HEADERS.length) ∧
    (reconcileHeaders (divergentShortHeader :: [])
      = headerFix divergentShortHeader :: [] ∧
    (headerFix divergentShortHeader).getD 1 "" = EXPECTED_HEADERS.getD 1 "") :=
  ⟨⟨by decide, by decide, by decide⟩,
    header_divergence_amended divergentShortHeader [] 1 (by decide) (by decide) (by decide)⟩

/-- C7: every read-path failure produces an empty result instead of an
error — `load_all_data` returns a frame with no rows whenever the sheet
handle is unavailable or fetching/shaping the rows raises, and `app.py`'s
`load_data` returns a frame with no rows whenever the CSV file is missing
or unreadable. -/
theorem read_failures_empty (s : Sheet) (sheetOk : Bool) (failAt : Option Nat)
    (c : DataFrame) (fileExists readOk : Bool)
    (h1 : sheetOk = false ∨ failAt = some 0 ∨ failAt = some 1)
    (h2 : fileExists = false ∨ readOk = false) :
    (load_all_dataF sheetOk failAt s).rows = [] ∧
    (app_load_data fileExists readOk c).rows = [] := by
  constructor
  · rcases h1 with rfl | rfl | rfl
    · rfl
    · cases sheetOk <;> rfl
    · cases sheetOk
      · rfl
      · rw [load_all_dataF, if_neg (by simp), if_neg (by simp)]
        split_ifs with h3 h4
        · rfl
        · rfl
        · exact absurd rfl h4
  · rcases h2 with rfl | rfl
    · rfl
    · cases fileExists <;> rfl

theorem read_failures_empty_witness :
    (((false : Bool) = false ∨ (none : Option Nat) = some 0 ∨ (none : Option Nat) = some 1) ∧
      ((true : Bool) = false ∨ (false : Bool) = false)) ∧
    ((load_all_dataF false none demoSheet).rows = [] ∧
      (app_load_data true false demoBadDF).rows = []) :=
  ⟨⟨by decide, by decide⟩,
    read_failures_empty demoSheet false none demoBadDF true false (by decide) (by decide)⟩

/-- C8: in a loaded frame, a row whose `BlocksJSON` column fails to decode
yields the empty block list in the list tab's per-row decode, and every
row of the same load (the failing one included) is decoded purely from its
own cells — so the failure leaves all other rows' decoded blocks
unaffected. -/
theorem decode_resilience (df : DataFrame) (idx j : Nat)
    (hidx : idx < df.rows.length) (hj : j < df.rows.length)
    (hbad : decodeBlocks (dfGet df (df.rows.getD idx []) "BlocksJSON") = none) :
    (tabListBlocks df).getD idx [] = [] ∧
    (tabListBlocks df).getD j [] = decodeRowBlocks df (df.rows.getD j []) := by
  have hmap : ∀ m, m < df.rows.length → (tabListBlocks df).getD m []
      = decodeRowBlocks df (df.rows.getD m []) := by
    intro m hm
    rw [tabListBlocks, List.getD_eq_getElem _ _ (by simpa using hm), List.getElem_map,
      List.getD_eq_getElem _ _ hm]
  refine ⟨?_, hmap j hj⟩
  rw [hmap idx hidx, decodeRowBlocks, hbad]

theorem decode_resilience_witness :
    (1 < demoBadDF.rows.length ∧ 0 < demoBadDF.rows.length ∧
      decodeBlocks (dfGet demoBadDF (demoBadDF.rows.getD 1 []) "BlocksJSON") = none) ∧
    ((tabListBlocks demoBadDF).getD 1 [] = [] ∧
      (tabListBlocks demoBadDF).getD 0 []
        = decodeRowBlocks demoBadDF (demoBadDF.rows.getD 0 [])) :=
  ⟨⟨by decide, by decide, by decide⟩,
    decode_resilience demoBadDF 1 0 (by decide) (by decide) (by decide)⟩

/-- C9: `save_daily_record` reports success exactly when the whole
operation ran: its result is `True` if and only if the sheet handle was
available and no store operation the run reaches fails — a missing handle
or a failure injected at any reached operation (the `findall`, any of the
six `update_cell` calls, or the `append_row`) makes it return `False`, so
the caller can always distinguish a failed save from a successful one. -/
theorem save_failure_reporting (sheetOk : Bool) (failAt : Option Nat) (s : Sheet)
    (d : String) (b : List Block) (i f n ts : String) :
    (save_daily_recordF sheetOk failAt s d b i f n ts).1 = true ↔
      (sheetOk = true ∧
        failsBeforeOps failAt (saveOpCount (reconcileHeaders s) d) = false) := by
  cases sheetOk
  · simp [save_daily_recordF]
  · rcases failAt with _ | k
    · rcases hfa : findallCol1 (reconcileHeaders s) d with _ | ⟨k2, t2⟩ <;>
        (rw [save_daily_recordF, hfa]; simp [saveOpCount, hfa, failsBeforeOps])
    · rcases hfa : findallCol1 (reconcileHeaders s) d with _ | ⟨k2, t2⟩
      · have hso : saveOpCount (reconcileHeaders s) d = 2 := by rw [saveOpCount, hfa]
        rw [hso]
        by_cases hk : k < 2
        · interval_cases k <;> (rw [save_daily_recordF, hfa]; simp [failsBeforeOps])
        · have hk0 : k ≠ 0 := by omega
          have hk1 : k ≠ 1 := by omega
          rw [save_daily_recordF, hfa]
          simp [failsBeforeOps, hk0, hk1, hk]
      · have hso : saveOpCount (reconcileHeaders s) d = 7 := by rw [saveOpCount, hfa]
        rw [hso]
        by_cases hk : k < 7
        · interval_cases k <;> (rw [save_daily_recordF, hfa]; simp [failsBeforeOps])
        · have hk0 : k ≠ 0 := by omega
          have hk1 : k ≠ 1 := by omega
          have hk2 : k ≠ 2 := by omega
          have hk3 : k ≠ 3 := by omega
          have hk4 : k ≠ 4 := by omega
          have hk5 : k ≠ 5 := by omega
          have hk6 : k ≠ 6 := by omega
          rw [save_daily_recordF, hfa]
          simp [failsBeforeOps, hk0, hk1, hk2, hk3, hk4, hk5, hk6, hk]

/-- C10: the CSV iteration's `save_data` always appends: every save grows
the stored rows by exactly one, the pre-existing rows survive unchanged as
a prefix, and two consecutive saves for the same date leave two additional
distinct rows carrying that date. -/
theorem csv_append_only (stored : List (List String))
    (d a1 a2 a3 a4 ts1 b1 b2 b3 b4 ts2 : String) :
    (app_save_data stored d a1 a2 a3 a4 ts1).length = stored.length + 1 ∧
    (app_save_data stored d a1 a2 a3 a4 ts1).take stored.length = stored ∧
    csvCountDate (app_save_data (app_save_data stored d a1 a2 a3 a4 ts1) d b1 b2 b3 b4 ts2) d
      = csvCountDate stored d + 2 := by
  refine ⟨by simp [app_save_data], ?_, ?_⟩
  · rw [app_save_data, List.take_left]
  · rw [app_save_data, app_save_data, csvCountDate, List.append_assoc, List.filter_append]
    rw [show ([[d, a1, a2, a3, a4, ts1]] ++ [[d, b1, b2, b3, b4, ts2]]).filter (rowMatches d)
        = [[d, a1, a2, a3, a4, ts1], [d, b1, b2, b3, b4, ts2]] from by
      simp [List.filter_cons, rowMatches]]
    rw [csvCountDate]
    simp

end Diary
